import Mathlib

/-!
Verification development for `with-domain-driven-caching`: a shallow embedding
of the cache-coherence engine (pointer-key derivation, dependency resolution,
mutation impact scanning, the pointer registry, and the query/mutation
orchestrators) together with proofs of the specified properties.

Modelling conventions
- JavaScript values (the `SerializableObject` duck type) are modelled by the
  closed inductive `Value`; domain objects carry their class name, their
  declared `unique` and `updatable` property lists, and their fields.
- The key/value store collaborator is an association list from string keys to
  values, where an absent binding and a stored `undefined` are both `none`.
- The external normalization collaborator (`with-cache-normalization`) replaces
  each domain-object occurrence by a reference marker (`Value.vRef`) and stores
  the snapshot under its reference key; denormalization substitutes markers
  back by store lookup.
- The external `sha256` content hash of a canonical serialization is modelled
  by the canonical serialization itself: an injective stand-in for a
  collision-free hash, preserving the only property the system relies on
  (identical serializations give identical keys, distinct ones distinct keys).
- Asynchronous execution: the orchestrators are modelled as deterministic
  state-passing runs emitting an event trace (sequential schedule of each
  `Promise.all`), plus a relational trace semantics quantifying over all
  interleavings of the concurrent sections for the ordering theorems.
-/

set_option autoImplicit false

/-- Distinguishes `DomainEntity` from `DomainValueObject` subclasses of the
`domain-objects` collaborator. -/
inductive DobjKind where
  | entity
  | valueObject
  deriving DecidableEq, Repr

/-- A JavaScript serializable value, as consumed by the caching engine.
`vRef` is the normalization collaborator's reference marker for an extracted
domain object; `vEntity kind name unique updatable fields` is a domain-object
instance together with its class-level declarations. -/
inductive Value where
  | vNull
  | vBool (b : Bool)
  | vNum (n : Int)
  | vStr (s : String)
  | vArr (items : List Value)
  | vObj (fields : List (String × Value))
  | vRef (key : String)
  | vEntity (kind : DobjKind) (name : String) (unique updatable : List String)
      (fields : List (String × Value))
  deriving Repr

/-- JavaScript truthiness of a value (`null`, `false`, `0` and `""` are falsy;
objects, arrays and domain objects are always truthy). -/
def truthy : Value → Bool
  | .vNull => false
  | .vBool b => b
  | .vNum n => !(n == 0)
  | .vStr s => !(s == "")
  | _ => true

/-- Truthiness of an optional value; `none` models JavaScript `undefined`. -/
def truthyOpt : Option Value → Bool
  | none => false
  | some v => truthy v

mutual

/-- Canonical serialization of a value: the model of both `JSON.stringify`
and the canonical (stable field ordering) `serialize` of `domain-objects`.
A domain-object instance serializes as the plain object of its fields. -/
def jsonStr : Value → String
  | .vNull => "null"
  | .vBool b => if b then "true" else "false"
  | .vNum n => toString n
  | .vStr s => "\"" ++ s ++ "\""
  | .vArr items => "[" ++ jsonStrList items ++ "]"
  | .vObj fields => "\x7b" ++ jsonStrFields fields ++ "\x7d"
  | .vRef key => "\"" ++ key ++ "\""
  | .vEntity _ _ _ _ fields => "\x7b" ++ jsonStrFields fields ++ "\x7d"

/-- Comma-joined serialization of a list of values. -/
def jsonStrList : List Value → String
  | [] => ""
  | [v] => jsonStr v
  | v :: rest => jsonStr v ++ "," ++ jsonStrList rest

/-- Comma-joined serialization of the fields of an object. -/
def jsonStrFields : List (String × Value) → String
  | [] => ""
  | [(k, v)] => "\"" ++ k ++ "\":" ++ jsonStr v
  | (k, v) :: rest => "\"" ++ k ++ "\":" ++ jsonStr v ++ "," ++ jsonStrFields rest

end

/-- Serialization of a possibly-undefined value, as used by the impact
scanner's change comparison (`serialize(undefined)` is `undefined`; it is
distinct from the serialization of every defined value). -/
def jsonStrOpt : Option Value → String
  | none => "undefined"
  | some v => jsonStr v

/-- Looks a field up on an object-like value, as JavaScript bracket access
does (returns `undefined` on scalars and on missing fields). -/
def objGet (v : Value) (key : String) : Option Value :=
  match v with
  | .vObj fields => fields.lookup key
  | .vEntity _ _ _ _ fields => fields.lookup key
  | _ => none

/-- Whether an object-like value has the given field (the JavaScript `in`
operator on the modelled shapes). -/
def hasField (v : Value) (key : String) : Bool :=
  match v with
  | .vObj fields => fields.any (fun p => p.1 == key)
  | .vEntity _ _ _ _ fields => fields.any (fun p => p.1 == key)
  | _ => false

/-- JavaScript string coercion as used where the engine interpolates a value
into a key (identity on strings; other values via their serialization). -/
def stringCoerce : Value → String
  | .vStr s => s
  | v => jsonStr v

/-- Keeps only word characters (the net effect of the source's sanitization
`replace(/:/g,'.')`, `replace(/[^\w\-\_]/g,'')`, `replace(/\.\./g,'.')`,
whose second step strips every character outside `[A-Za-z0-9_-]`, including
the dots the first step introduced). -/
def sanitizeSlug (s : String) : String :=
  (s.toList.filter (fun c => c.isAlphanum || c == '_' || c == '-')).asString

/-- The values of a domain object's declared unique key properties (for a
`DomainValueObject` with no declared `unique` list, all of its fields), which
determine its identity slug and reference key. -/
def uniqueKeyValues (unique : List String) (fields : List (String × Value)) : List Value :=
  match unique with
  | [] => fields.map (·.2)
  | ks => ks.map (fun k => (fields.lookup k).getD .vNull)

/-- Modelled external collaborator: `getUniqueIdentifierSlug` of
`domain-objects` — a deterministic, human-readable slug of a domain object's
class name and unique key values, with the content hash modelled by the
canonical serialization itself. -/
def getUniqueIdentifierSlug (v : Value) : String :=
  match v with
  | .vEntity _ name unique _ fields =>
    let keyVals := jsonStr (.vArr (uniqueKeyValues unique fields))
    name ++ "." ++ sanitizeSlug keyVals ++ "." ++ keyVals
  | other => jsonStr other

/-- `serializePropertyValue` of the pointer-key deriver: domain objects
resolve to their unique identifier slug; plain data to a sanitized
human-readable slug of its canonical serialization joined with a content hash
of that serialization (hash modelled by the serialization itself). -/
def serializePropertyValue (value : Value) : String :=
  match value with
  | .vEntity k n u up f => getUniqueIdentifierSlug (.vEntity k n u up f)
  | other =>
    let humanPart := sanitizeSlug (jsonStr other)
    let uniquePart := jsonStr other
    humanPart ++ "." ++ uniquePart

/-- A dependency pointer's specifier: `propertyOf` is the *identity*
specifier (any value of the property on the specific instance `uuid`);
`propertyEquals` is the *value* specifier (all instances whose property
equals `value`). -/
inductive Specifier where
  | propertyOf (uuid : String)
  | propertyEquals (value : Value)

/-- `defineDependencyPointerKey`: turns `{dobj, property, specifier}` into
the deterministic pointer key string, exactly as the source joins the
segments. -/
def defineDependencyPointerKey (dobj : String) (property : String)
    (specifier : Specifier) : String :=
  ".query.dep." ++ dobj ++
    (match specifier with
      | .propertyOf uuid => ".uuid." ++ uuid
      | .propertyEquals _ => "") ++
    "." ++ property ++
    (match specifier with
      | .propertyOf _ => ""
      | .propertyEquals value => "." ++ serializePropertyValue value)

/-- The key/value store collaborator: an association list where a later
binding for a key shadows earlier ones, and `none` models both an absent key
and a stored `undefined`. -/
def Store := List (String × Option Value)

/-- `get(key)`: the most recent binding for `key`, `undefined` when absent. -/
def Store.get (store : Store) (key : String) : Option Value :=
  match store with
  | [] => none
  | (k, v) :: rest => if k == key then v else Store.get rest key

/-- `set(key, value)`: bind `key` to `value` (shadowing former bindings). -/
def Store.set (store : Store) (key : String) (value : Option Value) : Store :=
  (key, value) :: store

/-- Modelled external collaborator: `getCacheReferenceKeyForDomainObject` of
`with-cache-normalization` — the stable storage key of one logical domain
object instance, derived from its class name and unique key values only (so
that two states of the same instance share one reference key). -/
def getCacheReferenceKey (v : Value) : String :=
  ".cache.ref." ++ getUniqueIdentifierSlug v

mutual

/-- Modelled external collaborator, normalization half: replaces every
domain-object occurrence in a value by its reference marker. -/
def normalizeValue : Value → Value
  | .vNull => .vNull
  | .vBool b => .vBool b
  | .vNum n => .vNum n
  | .vStr s => .vStr s
  | .vArr items => .vArr (normalizeValueList items)
  | .vObj fields => .vObj (normalizeValueFields fields)
  | .vRef key => .vRef key
  | .vEntity k n u up f => .vRef (getCacheReferenceKey (.vEntity k n u up f))

/-- Normalization mapped over a list of values. -/
def normalizeValueList : List Value → List Value
  | [] => []
  | v :: rest => normalizeValue v :: normalizeValueList rest

/-- Normalization mapped over object fields. -/
def normalizeValueFields : List (String × Value) → List (String × Value)
  | [] => []
  | (k, v) :: rest => (k, normalizeValue v) :: normalizeValueFields rest

end

mutual

/-- Modelled external collaborator: the references extracted from a value by
`normalizeDomainObjectReferences` — every domain-object occurrence paired
with its reference key, snapshots kept in their full (denormalized) shape. -/
def extractReferences : Value → List (String × Value)
  | .vNull | .vBool _ | .vNum _ | .vStr _ | .vRef _ => []
  | .vArr items => extractReferencesList items
  | .vObj fields => extractReferencesFields fields
  | .vEntity k n u up f =>
    (getCacheReferenceKey (.vEntity k n u up f), .vEntity k n u up f)
      :: extractReferencesFields f

/-- Reference extraction over a list of values. -/
def extractReferencesList : List Value → List (String × Value)
  | [] => []
  | v :: rest => extractReferences v ++ extractReferencesList rest

/-- Reference extraction over object fields. -/
def extractReferencesFields : List (String × Value) → List (String × Value)
  | [] => []
  | (_, v) :: rest => extractReferences v ++ extractReferencesFields rest

end

mutual

/-- Whether a value contains no reference marker (every value produced by
application logic, as opposed to a normalized cache entry). -/
def markerFree : Value → Bool
  | .vNull | .vBool _ | .vNum _ | .vStr _ => true
  | .vArr items => markerFreeList items
  | .vObj fields => markerFreeFields fields
  | .vRef _ => false
  | .vEntity _ _ _ _ f => markerFreeFields f

/-- `markerFree` over a list of values. -/
def markerFreeList : List Value → Bool
  | [] => true
  | v :: rest => markerFree v && markerFreeList rest

/-- `markerFree` over object fields. -/
def markerFreeFields : List (String × Value) → Bool
  | [] => true
  | (_, v) :: rest => markerFree v && markerFreeFields rest

end

mutual

/-- One substitution pass of the denormalization half of the external
collaborator: replaces each reference marker by the snapshot currently
stored at its reference key (left in place when absent), without walking
into the fetched snapshot. -/
def substituteReferencesOnce (store : Store) : Value → Value
  | .vNull => .vNull
  | .vBool b => .vBool b
  | .vNum n => .vNum n
  | .vStr s => .vStr s
  | .vArr items => .vArr (substituteReferencesOnceList store items)
  | .vObj fields => .vObj (substituteReferencesOnceFields store fields)
  | .vRef key =>
    match store.get key with
    | none => .vRef key
    | some snapshot => snapshot
  | .vEntity k n u up f => .vEntity k n u up (substituteReferencesOnceFields store f)

/-- One substitution pass over a list of values. -/
def substituteReferencesOnceList (store : Store) : List Value → List Value
  | [] => []
  | v :: rest =>
    substituteReferencesOnce store v :: substituteReferencesOnceList store rest

/-- One substitution pass over object fields. -/
def substituteReferencesOnceFields (store : Store) :
    List (String × Value) → List (String × Value)
  | [] => []
  | (k, v) :: rest =>
    (k, substituteReferencesOnce store v) :: substituteReferencesOnceFields store rest

end

/-- Modelled external collaborator, denormalization half: iterated
substitution passes with budget `fuel` (this engine stores snapshots in full
shape, so nested markers never need more passes than the nesting of entities
inside normalized entries). -/
def denormalizeValue (store : Store) (fuel : Nat) (value : Value) : Value :=
  match fuel with
  | 0 => value
  | f + 1 => denormalizeValue store f (substituteReferencesOnce store value)

/-- A cache operation observable in an execution trace: a store read, a store
write, or an invocation of the wrapped underlying logic. -/
inductive Event where
  | evGet (key : String)
  | evSet (key : String) (value : Option Value)
  | evInvoke
  deriving Repr

/-- The error taxonomy of the engine: `corruptPointerState` is the
fail-fast on a malformed registry record; `undefinableEntity` is the fatal
configuration error for a mutated entity without a `uuid`;
`unintuitiveRelationship` is the fail-fast on a relationship declared via an
implausibly named property; `jsTypeError` models the JavaScript `TypeError`
thrown when `serializePropertyValue` receives `undefined`. -/
inductive CacheError where
  | corruptPointerState (pointer : String)
  | undefinableEntity (referenceKey : String)
  | unintuitiveRelationship (viaProp : String) (referencedDobj : String)
  | jsTypeError
  deriving DecidableEq, Repr

/-- `isValidPointerState`: a truthy object-like value with a `queries` field
holding an array (the source checks no more than that about the shape). -/
def isValidPointerState (state : Value) : Bool :=
  truthy state &&
    (match state with
      | .vObj _ | .vEntity _ _ _ _ _ =>
        match objGet state "queries" with
        | some (.vArr _) => true
        | _ => false
      | _ => false)

/-- The `queries` array of a valid pointer record. -/
def pointerStateQueries (state : Value) : List Value :=
  match objGet state "queries" with
  | some (.vArr items) => items
  | _ => []

/-- The registry record holding the given query cache keys. -/
def pointerRecordOf (queries : List Value) : Value :=
  .vObj [("queries", .vArr queries)]

/-- JavaScript `Array.prototype.includes` of a string key against the stored
`queries` array (SameValueZero: only an equal string element matches). -/
def queriesInclude (queries : List Value) (queryKey : String) : Bool :=
  queries.any (fun v =>
    match v with
    | .vStr s => s == queryKey
    | _ => false)

/-- The cache key a stored query entry is cleared under: JavaScript coerces
the array element to a string when it is used as a store key. -/
def queryKeyOfValue : Value → String
  | .vStr s => s
  | v => jsonStr v

/-- The writes `addQueryKeyToDependencyPointer` performs, as a function of
the pointer state it observed inside its per-pointer bottleneck: an initial
record when the state was absent or falsy, a fail-fast on a truthy malformed
state, nothing when the key is already included, and an appended record
otherwise. Registry writes never expire (`secondsUntilExpiration: Infinity`). -/
def registrationWrites (observed : Option Value) (pointer queryKey : String) :
    Except CacheError (List (String × Option Value)) :=
  match observed with
  | none => .ok [(pointer, some (pointerRecordOf [.vStr queryKey]))]
  | some state =>
    if isValidPointerState state then
      let queries := pointerStateQueries state
      if queriesInclude queries queryKey then .ok []
      else .ok [(pointer, some (pointerRecordOf (queries ++ [.vStr queryKey])))]
    else if truthy state then .error (.corruptPointerState pointer)
    else .ok [(pointer, some (pointerRecordOf [.vStr queryKey]))]

/-- The trace of one registration: its read followed by its writes. -/
def registrationEvents (pointer : String)
    (writes : List (String × Option Value)) : List Event :=
  Event.evGet pointer :: writes.map (fun w => Event.evSet w.1 w.2)

/-- `addQueryKeyToDependencyPointer`: read-modify-write of the registry
record at `pointer`, appending `queryKey` if absent; returns the store after
the registration together with its trace. The per-pointer bottleneck makes
the read-modify-write atomic in-process, which the deterministic run models
by executing it in one step. -/
def addQueryKeyToDependencyPointer (store : Store) (pointer queryKey : String) :
    Except CacheError (Store × List Event) :=
  match registrationWrites (store.get pointer) pointer queryKey with
  | .error e => .error e
  | .ok writes =>
    .ok (writes.foldl (fun st w => st.set w.1 w.2) store,
      registrationEvents pointer writes)

/-- The query cache keys one invalidation clears, as a function of the
pointer state it observed: none for a falsy state, the listed keys
otherwise. -/
def invalidationClearKeys (observed : Option Value) : List String :=
  match observed with
  | none => []
  | some state =>
    if !truthy state then []
    else (pointerStateQueries state).map queryKeyOfValue

/-- The trace of one invalidation: its read of the pointer record followed
by the concurrent overwrites of each dependent query cache key with the
absent marker. -/
def invalidationThreadEvents (observed : Option Value) (pointer : String) :
    List Event :=
  Event.evGet pointer
    :: (invalidationClearKeys observed).map (fun q => Event.evSet q none)

/-- `invalidateQueriesByDependencyPointer`: look the pointer's record up; a
falsy state means nothing depends on it (no writes, empty result); a truthy
malformed state fails fast; otherwise each listed query cache key is
overwritten with the absent marker and the list of invalidated keys is
returned (the registry record itself is not written). -/
def invalidateQueriesByDependencyPointer (store : Store) (pointer : String) :
    Except CacheError (Store × List Event × List Value) :=
  let pointerState := store.get pointer
  match pointerState with
  | none => .ok (store, invalidationThreadEvents none pointer, [])
  | some state =>
    if !truthy state then
      .ok (store, invalidationThreadEvents (some state) pointer, [])
    else if !isValidPointerState state then .error (.corruptPointerState pointer)
    else
      let queries := pointerStateQueries state
      .ok (queries.foldl (fun st q => st.set (queryKeyOfValue q) none) store,
        invalidationThreadEvents (some state) pointer,
        queries)

/-- One-or-many ids as returned by a `uuid` extractor. -/
inductive OneOrMany where
  | one (s : String)
  | many (ss : List String)

/-- The id list a `uuid` extractor result expands to (`Array.isArray` check). -/
def OneOrMany.toList : OneOrMany → List String
  | .one s => [s]
  | .many ss => ss

/-- A `DomainDrivenQueryDependency`: exactly one of an identity dependency
(`dobj` class name plus a `uuid` extractor over the execution) or a
relationship dependency (`from` class and `uuid` extractor, `to` class, and
the `via` class/property that persists the relationship). -/
inductive Dependency where
  | identity (dobj : String) (uuid : List Value → Value → OneOrMany)
  | relationship (fromDobj : String) (fromUuid : List Value → Value → OneOrMany)
      (toDobj : String) (viaDobj : String) (viaProp : String)

/-- A `DomainDrivenQueryDependsOn`: a static dependency list, or a function
of the execution producing one (evaluated once, after the query has run). -/
inductive DependsOn where
  | statically (ds : List Dependency)
  | dynamically (f : List Value → Value → List Dependency)

/-- The pointer keys one dependency declaration resolves to for one
execution. An identity declaration emits one *value*-specifier pointer per id,
keyed on the `uuid` property. A relationship declaration determines the
foreign-key side by comparing `via.dobj` with `from.dobj`, fails fast when
the `via` property's name does not plausibly reference the other side's class
(the `intuitive` naming heuristic is the external `domain-objects`
collaborator `isPropertyNameAReferenceIntuitively`), and otherwise emits an
*identity*-specifier pointer per id when the relationship is stored on the
source, else a *value*-specifier pointer per id. -/
def dependencyPointers (intuitive : String → String → Bool)
    (dependency : Dependency) (input : List Value) (output : Value) :
    Except CacheError (List String) :=
  match dependency with
  | .identity dobj uuid =>
    let uuids := (uuid input output).toList
    .ok (uuids.map (fun u =>
      defineDependencyPointerKey dobj "uuid" (.propertyEquals (.vStr u))))
  | .relationship fromDobj fromUuid toDobj viaDobj viaProp =>
    let uuids := (fromUuid input output).toList
    let viaSourceDobj := viaDobj == fromDobj
    let referencedDobj := if viaSourceDobj then toDobj else fromDobj
    if !intuitive viaProp referencedDobj then
      .error (.unintuitiveRelationship viaProp referencedDobj)
    else
      .ok (uuids.map (fun u =>
        defineDependencyPointerKey viaDobj viaProp
          (if viaSourceDobj then .propertyOf u else .propertyEquals (.vStr u))))

/-- `getDependencyPointersDependedOnByQuery`: evaluate the `dependsOn` spec
(calling it when it is a function), resolve every declaration, and
concatenate the resulting pointer keys in order. -/
def getDependencyPointersDependedOnByQuery (intuitive : String → String → Bool)
    (dependsOn : DependsOn) (input : List Value) (output : Value) :
    Except CacheError (List String) := do
  let ds :=
    match dependsOn with
    | .statically ds => ds
    | .dynamically f => f input output
  let pointerLists ← ds.mapM (fun d => dependencyPointers intuitive d input output)
  .ok pointerLists.flatten

/-- First-occurrence deduplication, the model of `[...new Set(list)]`. -/
def dedupeKeys (keys : List String) : List String :=
  go [] keys
where
  /-- Walks the list keeping each key's first occurrence. -/
  go (seen : List String) : List String → List String
    | [] => []
    | k :: rest => if seen.contains k then go seen rest else k :: go (k :: seen) rest

/-- The metadata property names `omitMetadataValues` of `domain-objects`
strips before the conservative first-write expansion (identity and audit
fields are not facts dependents can watch through value pointers). -/
def metadataKeys : List String := ["id", "uuid", "createdAt", "updatedAt", "effectiveAt"]

/-- The properties the impact scanner considers impacted for a referenced
domain entity: every non-metadata field when no truthy prior snapshot is
cached (conservative first-write policy), otherwise the declared updatable
properties whose canonical serialization differs between the prior snapshot
and the referenced state. -/
def impactedProperties (cached : Option Value) (updatable : List String)
    (fields : List (String × Value)) : List String :=
  if !truthyOpt cached then
    (fields.map (·.1)).filter (fun k => !metadataKeys.contains k)
  else
    updatable.filter (fun k =>
      jsonStrOpt (objGet (cached.getD .vNull) k) != jsonStrOpt (fields.lookup k))

/-- The old-value expansion of a changed property: a falsy prior value
contributes nothing, an array contributes each element, any other truthy
value contributes itself. -/
def oldValueArray (propertyValueOld : Option Value) : List Value :=
  match propertyValueOld with
  | none => []
  | some v => if !truthy v then [] else
      match v with
      | .vArr items => items
      | other => [other]

/-- The new-value expansion of a changed property: an array contributes each
element, any other value contributes itself (`undefined` would reach
`serializePropertyValue` and raise a `TypeError`, which the scanner model
surfaces as `jsTypeError`). -/
def newValueArray (propertyValueNew : Option Value) : Except CacheError (List Value) :=
  match propertyValueNew with
  | none => .error .jsTypeError
  | some (.vArr items) => .ok items
  | some other => .ok [other]

/-- The pointers one impacted property of a referenced entity expands to:
the *identity*-specifier pointer for the entity and property (failing fast
when the entity has no `uuid`), plus a *value*-specifier pointer for each
element of the concatenation of the old-value and new-value expansions. -/
def impactedPropertyPointers (cached : Option Value) (referenceKey : String)
    (name : String) (fields : List (String × Value)) (propertyKey : String) :
    Except CacheError (List String) := do
  if !hasField (.vObj fields) "uuid" then
    .error (.undefinableEntity referenceKey)
  else
    let uuid := stringCoerce ((objGet (.vObj fields) "uuid").getD .vNull)
    let fromIdentityPointer :=
      defineDependencyPointerKey name propertyKey (.propertyOf uuid)
    let propertyValueOldArray :=
      oldValueArray (objGet (cached.getD .vNull) propertyKey)
    let propertyValueNewArray ← newValueArray (fields.lookup propertyKey)
    let merged := propertyValueOldArray ++ propertyValueNewArray
    .ok (fromIdentityPointer ::
      merged.map (fun v =>
        defineDependencyPointerKey name propertyKey (.propertyEquals v)))

/-- `getDependencyPointersInvalidatedByMutationOutputReference`: a referenced
value that is not a `DomainEntity` yields nothing; otherwise the prior
snapshot is read from the store at the reference key, the impacted properties
are determined, each expands to its identity and value pointers, and the
concatenation is deduplicated. -/
def getDependencyPointersInvalidatedByMutationOutputReference (store : Store)
    (referenceKey : String) (referencedDobj : Value) :
    Except CacheError (List String) :=
  match referencedDobj with
  | .vEntity .entity name _ updatable fields => do
    let dobjCached := store.get referenceKey
    let impacted := impactedProperties dobjCached updatable fields
    let pointerLists ← impacted.mapM
      (impactedPropertyPointers dobjCached referenceKey name fields)
    .ok (dedupeKeys pointerLists.flatten)
  | _ => .ok []

/-- `getDependencyPointersInvalidatedByMutation`: extract every domain-object
reference from the mutation output, scan each against its prior snapshot,
and return the deduplicated union of impacted pointers. -/
def getDependencyPointersInvalidatedByMutation (store : Store) (output : Value) :
    Except CacheError (List String) := do
  let references := extractReferences output
  let pointerLists ← references.mapM (fun r =>
    getDependencyPointersInvalidatedByMutationOutputReference store r.1 r.2)
  .ok (dedupeKeys pointerLists.flatten)

/-- One substitution level suffices to denormalize entries this engine
writes, because reference snapshots are stored in full (denormalized) shape;
the budget constant makes the external walker total. -/
def denormalizationFuel : Nat := 1

/-- `get` through `withNormalization(withSerialization(cache))`: read the
raw entry and substitute its reference markers by the snapshots currently
stored at their reference keys. -/
def normalizedCacheGet (store : Store) (key : String) : Option Value :=
  match store.get key with
  | none => none
  | some raw => some (denormalizeValue store denormalizationFuel raw)

/-- `set` through `withNormalization(withSerialization(cache))`: store each
extracted domain-object snapshot once under its own reference key (long
shared retention), then store the normalized value under the entry's key. -/
def normalizedCacheSet (store : Store) (key : String) (value : Value) :
    Store × List Event :=
  let references := extractReferences value
  let storeWithRefs := references.foldl (fun st r => st.set r.1 (some r.2)) store
  (storeWithRefs.set key (some (normalizeValue value)),
    references.map (fun r => Event.evSet r.1 (some r.2))
      ++ [Event.evSet key (some (normalizeValue value))])

/-- The registration thread of one resolved pointer, as the list of cache
operations it performs given the pointer state it observed inside its
bottleneck (a thread that fails fast on a corrupt record performs only its
read). -/
def registrationThreadEvents (observed : Option Value) (pointer queryKey : String) :
    List Event :=
  match registrationWrites observed pointer queryKey with
  | .ok writes => registrationEvents pointer writes
  | .error _ => [Event.evGet pointer]

/-- The registration phase of the miss path: the query's cache key is
registered against every resolved pointer (`Promise.all` over the pointers;
the deterministic run executes them in list order, accumulating the store
and the combined trace). -/
def registerQueryKeyAgainstPointers (store : Store) (pointers : List String)
    (queryKey : String) : Except CacheError (Store × List Event) :=
  pointers.foldlM
    (fun acc pointer => do
      let (st, evs) ← addQueryKeyToDependencyPointer acc.1 pointer queryKey
      .ok (st, acc.2 ++ evs))
    (store, ([] : List Event))

/-- The trace shape of a completed miss-path execution of a wrapped query:
the miss read, the invocation of the underlying logic, the registration
section, the persist section, and the final re-read of the entry. -/
def queryMissTrace (key : String) (registrationTrace persistTrace : List Event) :
    List Event :=
  Event.evGet key :: Event.evInvoke
    :: (registrationTrace ++ persistTrace ++ [Event.evGet key])

/-- The options of `withQueryCaching`: an optional cache-key serializer over
the input, the declared dependencies, an optional validity predicate, and an
optional per-query expiration (expiration is not observable in this model's
store and is omitted). -/
structure QueryCachingOptions where
  serializeKey : Option (List Value → String)
  dependsOn : DependsOn
  valid : Option (List Value → Value → Bool)

/-- The cache key of one query execution: the caller-supplied serializer
over the input when present, else `JSON.stringify` of the argument array. -/
def queryCacheKeyOf (options : QueryCachingOptions) (input : List Value) : String :=
  match options.serializeKey with
  | some f => f input
  | none => jsonStr (.vArr input)

/-- The result of one run of a wrapped query: the value returned to the
caller (`none` models an `undefined` return), the store afterwards, and the
trace of cache operations and logic invocations. -/
structure QueryRunResult where
  output : Option Value
  store : Store
  events : List Event

/-- One call of the function `withQueryCaching` returns, run to completion:
check the cache (hit returns the denormalized entry without invoking the
logic); on miss invoke the logic once; an output failing the `valid`
predicate is returned uncached; otherwise resolve the dependency pointers,
register the query's cache key against every one of them, persist the
normalized output, and return the value re-read from the cache. The
registrations of one run execute in declaration order (the sequential
schedule of the source's `Promise.all`). -/
def withQueryCachingRun (intuitive : String → String → Bool)
    (logic : List Value → Value) (options : QueryCachingOptions)
    (store : Store) (input : List Value) :
    Except CacheError QueryRunResult := do
  let key := queryCacheKeyOf options input
  let found := normalizedCacheGet store key
  if truthyOpt found then
    .ok ⟨found, store, [Event.evGet key]⟩
  else
    let output := logic input
    let isValidCacheEntry :=
      match options.valid with
      | none => true
      | some valid => valid input output
    if !isValidCacheEntry then
      .ok ⟨some output, store, [Event.evGet key, Event.evInvoke]⟩
    else
      let pointers ← getDependencyPointersDependedOnByQuery intuitive
        options.dependsOn input output
      let (storeRegistered, registrationTrace) ←
        registerQueryKeyAgainstPointers store pointers key
      let (storePersisted, persistTrace) :=
        normalizedCacheSet storeRegistered key output
      let foundNow := normalizedCacheGet storePersisted key
      .ok ⟨foundNow, storePersisted,
        queryMissTrace key registrationTrace persistTrace⟩

/-- The trace shape of a completed execution of a wrapped mutation: the
invocation of the underlying logic, the invalidation section, then the
reference-snapshot writes (the impact scan's own reads are not traced in
this model). -/
def mutationEffectsTrace (invalidationTrace referenceWrites : List Event) :
    List Event :=
  Event.evInvoke :: (invalidationTrace ++ referenceWrites)

/-- The result of one run of a wrapped mutation: the mutation's own output,
the store afterwards, the impacted pointers, the query keys invalidated, and
the trace. -/
structure MutationRunResult where
  output : Value
  store : Store
  pointers : List String
  queriesInvalidated : List Value
  events : List Event

/-- One call of the function `withMutationEffects` returns, run to
completion: invoke the logic, scan the output against the prior snapshots
for impacted pointers, invalidate every one of them (collecting the union of
invalidated query keys), then persist each referenced entity's snapshot to
its reference key, and return the logic's output unchanged. Invalidations
and snapshot writes of one run execute in list order (the sequential
schedule of the source's `Promise.all`s). -/
def withMutationEffectsRun (logic : List Value → Value) (store : Store)
    (input : List Value) : Except CacheError MutationRunResult := do
  let output := logic input
  let pointers ← getDependencyPointersInvalidatedByMutation store output
  let (storeInvalidated, invalidationTrace, queriesInvalidated) ← pointers.foldlM
    (fun acc pointer => do
      let (st, evs, qs) ← invalidateQueriesByDependencyPointer acc.1 pointer
      .ok (st, acc.2.1 ++ evs, acc.2.2 ++ qs))
    (store, ([] : List Event), ([] : List Value))
  let references := extractReferences output
  let storePersisted :=
    references.foldl (fun st r => st.set r.1 (some r.2)) storeInvalidated
  .ok ⟨output, storePersisted, pointers, queriesInvalidated,
    mutationEffectsTrace invalidationTrace
      (references.map (fun r => Event.evSet r.1 (some r.2)))⟩

/-- An interleaving of a list of threads (each a sequence of events): at each
step some thread's next event is appended. Quantifying over this relation
models every schedule the `Promise.all` concurrency of the source admits. -/
inductive IsInterleaving {α : Type} : List (List α) → List α → Prop where
  | done (threads : List (List α)) (h : ∀ l ∈ threads, l = []) :
      IsInterleaving threads []
  | step (threads : List (List α)) (i : Nat) (x : α) (tl rest : List α)
      (hget : threads.get? i = some (x :: tl))
      (hrec : IsInterleaving (threads.set i tl) rest) :
      IsInterleaving threads (x :: rest)

/-- The number of underlying-logic invocations in a trace. -/
def countInvokes (events : List Event) : Nat :=
  events.countP (fun e => match e with | .evInvoke => true | _ => false)

/-- How often a query cache key occurs in a registry record's `queries`
array (only equal string elements count, as for `includes`). -/
def countQueryKey (queries : List Value) (queryKey : String) : Nat :=
  queries.countP (fun v =>
    match v with
    | .vStr s => s == queryKey
    | _ => false)

/-- The `queries` array of the registry record at a pointer (empty when no
record is stored). -/
def queriesAt (store : Store) (pointer : String) : List Value :=
  match store.get pointer with
  | none => []
  | some state => pointerStateQueries state

/-- The states of a pointer's registry slot under which a registration is
well-defined and cannot introduce a duplicate: no record, a falsy slot, or a
valid record in which the query key occurs at most once (the invariant
registration itself maintains). -/
def registrationPrecondition (store : Store) (pointer queryKey : String) : Bool :=
  match store.get pointer with
  | none => true
  | some state =>
    !truthy state ||
      (isValidPointerState state &&
        countQueryKey (pointerStateQueries state) queryKey ≤ 1)

/-- Reference coherence of a value: all extracted snapshots sharing one
reference key are identical (two conflicting states of one logical entity
inside a single value would make the shared snapshot ambiguous). -/
def ReferencesCoherent (value : Value) : Prop :=
  ∀ p ∈ extractReferences value, ∀ q ∈ extractReferences value,
    p.1 = q.1 → p.2 = q.2

/-- Whether a cache key is distinct from every reference key extracted from
a value (a query entry must not shadow one of its own snapshots). -/
def keyOutsideReferences (key : String) (value : Value) : Bool :=
  (extractReferences value).all (fun r => !(r.1 == key))

/-- The configured validity of one execution's output (`true` when no
`valid` predicate is supplied). -/
def queryOutputIsValid (options : QueryCachingOptions) (input : List Value)
    (output : Value) : Bool :=
  match options.valid with
  | none => true
  | some valid => valid input output

/-- The declared updatable properties whose canonical serialization differs
between a prior snapshot and the referenced fields: the change set of the
impact scan for an already-cached entity. -/
def changedUpdatableProperties (cached : Value) (updatable : List String)
    (fields : List (String × Value)) : List String :=
  updatable.filter (fun k =>
    jsonStrOpt (objGet cached k) != jsonStrOpt (fields.lookup k))

/-- The new-value expansion of a property for stating the impact scan's
output (total variant of `newValueArray`, whose failing branch is never reached
with a missing field under the theorems below). -/
def newValueCandidates (propertyValueNew : Option Value) : List Value :=
  match propertyValueNew with
  | none => []
  | some (.vArr items) => items
  | some other => [other]

/-- The invoke count of a query run (`99` on an aborted run). -/
def queryRunInvokes (r : Except CacheError QueryRunResult) : Nat :=
  match r with
  | .ok x => countInvokes x.events
  | .error _ => 99

/-- The value a query run returned (`none` on an aborted run). -/
def queryRunValue (r : Except CacheError QueryRunResult) : Option Value :=
  match r with
  | .ok x => x.output
  | .error _ => none

/-- The store a query run left behind (empty on an aborted run). -/
def queryRunStore (r : Except CacheError QueryRunResult) : Store :=
  match r with
  | .ok x => x.store
  | .error _ => []

/-- The impacted pointers a mutation run evaluated (empty on an abort). -/
def mutationRunPointers (r : Except CacheError MutationRunResult) : List String :=
  match r with
  | .ok x => x.pointers
  | .error _ => []

/-- The query keys a mutation run invalidated (empty on an abort). -/
def mutationRunInvalidated (r : Except CacheError MutationRunResult) : List Value :=
  match r with
  | .ok x => x.queriesInvalidated
  | .error _ => []

/-- The store a mutation run left behind (empty on an abort). -/
def mutationRunStore (r : Except CacheError MutationRunResult) : Store :=
  match r with
  | .ok x => x.store
  | .error _ => []

/-- The naming heuristic instance used by the concrete scenario (identity
dependencies never consult it). -/
def scenarioIntuitive : String → String → Bool := fun _ _ => true

/-- The job state before the mutation (`name: "Junk Removal"`). -/
def jobBefore : Value :=
  .vEntity .entity "Job" ["uuid"] ["name"]
    [("uuid", .vStr "u1"), ("name", .vStr "Junk Removal")]

/-- The job state after the mutation (`name: "Hot Tub Removal"`). -/
def jobAfter : Value :=
  .vEntity .entity "Job" ["uuid"] ["name"]
    [("uuid", .vStr "u1"), ("name", .vStr "Hot Tub Removal")]

/-- The input of `getJobByUuid({uuid})`. -/
def getJobByUuidInput : List Value := [.vObj [("uuid", .vStr "u1")]]

/-- The options of the cached `getJobByUuid`: default key serialization and
an identity dependency on `{Job, uuid}` extracted from the input. -/
def getJobByUuidOptions : QueryCachingOptions :=
  ⟨none,
    .statically [.identity "Job"
      (fun input _ =>
        .one (stringCoerce ((objGet (input.headD .vNull) "uuid").getD .vNull)))],
    none⟩

/-- The dependency pointer the identity dependency `{Job, uuid: "u1"}`
registers against. -/
def jobIdentityPointer : String :=
  defineDependencyPointerKey "Job" "uuid" (.propertyEquals (.vStr "u1"))

/-- The first `getJobByUuid` call of the scenario, on an empty cache. -/
def scenarioFirstGet : Except CacheError QueryRunResult :=
  withQueryCachingRun scenarioIntuitive (fun _ => jobBefore)
    getJobByUuidOptions [] getJobByUuidInput

/-- The `setJobName` mutation of the scenario, run on the cache the first
call left behind. -/
def scenarioMutation : Except CacheError MutationRunResult :=
  withMutationEffectsRun (fun _ => jobAfter) (queryRunStore scenarioFirstGet)
    [.vObj [("jobUuid", .vStr "u1"), ("name", .vStr "Hot Tub Removal")]]

/-- The second `getJobByUuid` call of the scenario, on the cache the
mutation left behind (the underlying store would now return the updated
job). -/
def scenarioSecondGet : Except CacheError QueryRunResult :=
  withQueryCachingRun scenarioIntuitive (fun _ => jobAfter)
    getJobByUuidOptions (mutationRunStore scenarioMutation) getJobByUuidInput

/-- The store an invalidation left behind (empty on a fail-fast). -/
def invalidationRunStore
    (r : Except CacheError (Store × List Event × List Value)) : Store :=
  match r with
  | .ok x => x.1
  | .error _ => []

/-- The pointers a scan produced (empty on a fail-fast). -/
def scanRunPointers (r : Except CacheError (List String)) : List String :=
  match r with
  | .ok pointers => pointers
  | .error _ => []

/-- A container-like entity whose prior snapshot carries a falsy (empty
string) value of the updatable property `label`, now observed as `"B"`. -/
def boxWithFalsyHistory : Value :=
  .vEntity .entity "Box" ["bid"] ["label"]
    [("uuid", .vStr "bu"), ("bid", .vStr "b1"), ("label", .vStr "B")]

/-- The store caching the prior snapshot of `boxWithFalsyHistory`, whose
`label` was the empty string. -/
def boxStore : Store :=
  [("ref.box", some (.vObj
    [("uuid", .vStr "bu"), ("bid", .vStr "b1"), ("label", .vStr "")]))]

/-- A mutable domain entity without a `uuid` field, used to probe the
missing-identifier error. -/
def widgetWithoutUuid : Value :=
  .vEntity .entity "Widget" ["wid"] ["label"]
    [("wid", .vStr "w1"), ("label", .vStr "L")]

/-- A store already caching `widgetWithoutUuid`'s exact state (so that no
updatable property is impacted). -/
def widgetStore : Store :=
  [("ref.widget", some (.vObj [("wid", .vStr "w1"), ("label", .vStr "L")]))]

theorem Store.get_set (store : Store) (key k : String) (value : Option Value) :
    (store.set key value).get k = if key == k then value else store.get k := by
  simp [Store.set, Store.get]

theorem Store.get_set_self (store : Store) (key : String) (value : Option Value) :
    (store.set key value).get key = value := by
  simp [Store.set, Store.get]

theorem Store.get_set_other (store : Store) (key k : String) (value : Option Value)
    (h : key ≠ k) : (store.set key value).get k = store.get k := by
  simp [Store.set, Store.get, h]

theorem get_foldl_setNone (keys : List String) :
    ∀ (store : Store) (k : String),
      (keys.foldl (fun st q => st.set q none) store).get k =
        if k ∈ keys then none else store.get k := by
  induction keys with
  | nil => intro store k; simp
  | cons a rest ih =>
    intro store k
    rw [List.foldl_cons, ih]
    by_cases hk : k ∈ rest
    · simp [hk]
    · rw [if_neg hk]
      by_cases hak : k = a
      · subst hak
        simp [Store.get_set_self]
      · rw [Store.get_set_other _ _ _ _ (fun h => hak h.symm)]
        rw [if_neg (by simp [List.mem_cons, hak, hk])]

theorem get_foldl_setRefs_notMem (refs : List (String × Value)) :
    ∀ (store : Store) (k : String), (∀ p ∈ refs, p.1 ≠ k) →
      (refs.foldl (fun st r => st.set r.1 (some r.2)) store).get k = store.get k := by
  induction refs with
  | nil => intro store k _; rfl
  | cons r rest ih =>
    intro store k h
    simp only [List.foldl_cons]
    rw [ih _ _ (fun p hp => h p (List.mem_cons_of_mem r hp))]
    exact Store.get_set_other store r.1 k (some r.2) (h r (List.mem_cons_self r rest))

theorem get_foldl_setRefs_mem (refs : List (String × Value)) :
    ∀ (store : Store) (k : String) (s : Value), (k, s) ∈ refs →
      (∀ p ∈ refs, p.1 = k → p.2 = s) →
      (refs.foldl (fun st r => st.set r.1 (some r.2)) store).get k = some s := by
  induction refs with
  | nil => intro _ _ _ h; cases h
  | cons r rest ih =>
    intro store k s hmem hco
    simp only [List.foldl_cons]
    by_cases hr : (k, s) ∈ rest
    · exact ih _ _ _ hr (fun p hp => hco p (List.mem_cons_of_mem r hp))
    · have hhead : r = (k, s) := by
        rcases List.mem_cons.mp hmem with h | h
        · exact h.symm
        · exact absurd h hr
      subst hhead
      have hrest : ∀ p ∈ rest, p.1 ≠ k := by
        intro p hp hpk
        have h2 := hco p (List.mem_cons_of_mem _ hp) hpk
        apply hr
        have hps : p = (k, s) := Prod.ext hpk h2
        rwa [hps] at hp
      rw [get_foldl_setRefs_notMem rest _ _ hrest]
      exact Store.get_set_self store k (some s)

mutual

theorem substituteReferencesOnce_markerFree (store : Store) :
    ∀ v, markerFree v = true → substituteReferencesOnce store v = v
  | .vNull, _ => rfl
  | .vBool _, _ => rfl
  | .vNum _, _ => rfl
  | .vStr _, _ => rfl
  | .vArr items, h => by
    rw [substituteReferencesOnce,
      substituteReferencesOnceList_markerFree store items (by simpa [markerFree] using h)]
  | .vObj fields, h => by
    rw [substituteReferencesOnce,
      substituteReferencesOnceFields_markerFree store fields (by simpa [markerFree] using h)]
  | .vRef _, h => by simp [markerFree] at h
  | .vEntity k n u up f, h => by
    rw [substituteReferencesOnce,
      substituteReferencesOnceFields_markerFree store f (by simpa [markerFree] using h)]

theorem substituteReferencesOnceList_markerFree (store : Store) :
    ∀ vs, markerFreeList vs = true → substituteReferencesOnceList store vs = vs
  | [], _ => rfl
  | v :: rest, h => by
    have h2 := (Bool.and_eq_true _ _).mp (by simpa [markerFreeList] using h)
    rw [substituteReferencesOnceList,
      substituteReferencesOnce_markerFree store v h2.1,
      substituteReferencesOnceList_markerFree store rest h2.2]

theorem substituteReferencesOnceFields_markerFree (store : Store) :
    ∀ fs, markerFreeFields fs = true → substituteReferencesOnceFields store fs = fs
  | [], _ => rfl
  | (k, v) :: rest, h => by
    have h2 := (Bool.and_eq_true _ _).mp (by simpa [markerFreeFields] using h)
    rw [substituteReferencesOnceFields,
      substituteReferencesOnce_markerFree store v h2.1,
      substituteReferencesOnceFields_markerFree store rest h2.2]

end

theorem denormalizeValue_markerFree (store : Store) (fuel : Nat) (v : Value)
    (h : markerFree v = true) : denormalizeValue store fuel v = v := by
  induction fuel with
  | zero => rfl
  | succ f ih =>
    rw [denormalizeValue, substituteReferencesOnce_markerFree store v h, ih]

mutual

theorem substituteReferencesOnce_normalize (store : Store) :
    ∀ v, markerFree v = true →
      (∀ p ∈ extractReferences v, store.get p.1 = some p.2) →
      substituteReferencesOnce store (normalizeValue v) = v
  | .vNull, _, _ => rfl
  | .vBool _, _, _ => rfl
  | .vNum _, _, _ => rfl
  | .vStr _, _, _ => rfl
  | .vArr items, h, hrefs => by
    rw [normalizeValue, substituteReferencesOnce,
      substituteReferencesOnceList_normalize store items
        (by simpa [markerFree] using h) (by simpa [extractReferences] using hrefs)]
  | .vObj fields, h, hrefs => by
    rw [normalizeValue, substituteReferencesOnce,
      substituteReferencesOnceFields_normalize store fields
        (by simpa [markerFree] using h) (by simpa [extractReferences] using hrefs)]
  | .vRef _, h, _ => by simp [markerFree] at h
  | .vEntity k n u up f, _, hrefs => by
    rw [normalizeValue, substituteReferencesOnce]
    have hself := hrefs (getCacheReferenceKey (.vEntity k n u up f), .vEntity k n u up f)
      (by rw [extractReferences]; exact List.mem_cons_self _ _)
    rw [hself]

theorem substituteReferencesOnceList_normalize (store : Store) :
    ∀ vs, markerFreeList vs = true →
      (∀ p ∈ extractReferencesList vs, store.get p.1 = some p.2) →
      substituteReferencesOnceList store (normalizeValueList vs) = vs
  | [], _, _ => rfl
  | v :: rest, h, hrefs => by
    have h2 := (Bool.and_eq_true _ _).mp (by simpa [markerFreeList] using h)
    rw [normalizeValueList, substituteReferencesOnceList,
      substituteReferencesOnce_normalize store v h2.1
        (fun p hp => hrefs p (by rw [extractReferencesList]; exact List.mem_append_left _ hp)),
      substituteReferencesOnceList_normalize store rest h2.2
        (fun p hp => hrefs p (by rw [extractReferencesList]; exact List.mem_append_right _ hp))]

theorem substituteReferencesOnceFields_normalize (store : Store) :
    ∀ fs, markerFreeFields fs = true →
      (∀ p ∈ extractReferencesFields fs, store.get p.1 = some p.2) →
      substituteReferencesOnceFields store (normalizeValueFields fs) = fs
  | [], _, _ => rfl
  | (k, v) :: rest, h, hrefs => by
    have h2 := (Bool.and_eq_true _ _).mp (by simpa [markerFreeFields] using h)
    rw [normalizeValueFields, substituteReferencesOnceFields,
      substituteReferencesOnce_normalize store v h2.1
        (fun p hp => hrefs p (by rw [extractReferencesFields]; exact List.mem_append_left _ hp)),
      substituteReferencesOnceFields_normalize store rest h2.2
        (fun p hp => hrefs p (by rw [extractReferencesFields]; exact List.mem_append_right _ hp))]

end

theorem normalizedCacheGet_after_set (store : Store) (key : String) (v : Value)
    (hm : markerFree v = true) (hc : ReferencesCoherent v)
    (hk : keyOutsideReferences key v = true) :
    normalizedCacheGet (normalizedCacheSet store key v).1 key = some v := by
  have hkey : ∀ p ∈ extractReferences v, p.1 ≠ key := by
    intro p hp
    have := (List.all_eq_true.mp hk) p hp
    simpa using this
  have hget : (normalizedCacheSet store key v).1.get key
      = some (normalizeValue v) := by
    unfold normalizedCacheSet
    exact Store.get_set_self _ _ _
  have hrefs : ∀ p ∈ extractReferences v,
      (normalizedCacheSet store key v).1.get p.1 = some p.2 := by
    intro p hp
    unfold normalizedCacheSet
    rw [Store.get_set_other _ _ _ _ (fun h => (hkey p hp) h.symm)]
    exact get_foldl_setRefs_mem _ _ _ _ (by simpa using hp)
      (fun q hq hq1 => hc q hq (p.1, p.2) (by simpa using hp) hq1)
  unfold normalizedCacheGet
  rw [hget]
  exact congrArg some (substituteReferencesOnce_normalize _ v hm hrefs)

theorem substituteReferencesOnce_falsy (store : Store) (v : Value)
    (h : truthy v = false) : substituteReferencesOnce store v = v := by
  cases v with
  | vNull => rfl
  | vBool _ => rfl
  | vNum _ => rfl
  | vStr _ => rfl
  | vArr _ => simp [truthy] at h
  | vObj _ => simp [truthy] at h
  | vRef _ => simp [truthy] at h
  | vEntity _ _ _ _ _ => simp [truthy] at h

theorem denormalizeValue_falsy (store : Store) (fuel : Nat) (v : Value)
    (h : truthy v = false) : denormalizeValue store fuel v = v := by
  induction fuel with
  | zero => rfl
  | succ f ih => rw [denormalizeValue, substituteReferencesOnce_falsy store v h, ih]

theorem normalizedCacheGet_falsy (store : Store) (key : String)
    (h : truthyOpt (store.get key) = false) :
    truthyOpt (normalizedCacheGet store key) = false := by
  unfold normalizedCacheGet
  cases hv : store.get key with
  | none => rfl
  | some v =>
    rw [hv] at h
    simp only [truthyOpt] at h ⊢
    rw [denormalizeValue_falsy store _ v h]
    exact h

theorem flatten_set_perm {α : Type} (threads : List (List α)) :
    ∀ (i : Nat) (x : α) (tl : List α), threads.get? i = some (x :: tl) →
      threads.flatten.Perm (x :: (threads.set i tl).flatten) := by
  induction threads with
  | nil => intro i x tl h; simp at h
  | cons l ls ih =>
    intro i x tl h
    cases i with
    | zero =>
      simp only [List.get?] at h
      cases h
      simp only [List.set, List.flatten_cons, List.cons_append]
      exact List.Perm.refl _
    | succ j =>
      simp only [List.get?] at h
      have hp := ih j x tl h
      simp only [List.set, List.flatten_cons]
      exact (List.Perm.append_left l hp).trans List.perm_middle

theorem interleaving_flatten_perm {α : Type} (threads : List (List α))
    (trace : List α) (h : IsInterleaving threads trace) :
    threads.flatten.Perm trace := by
  induction h with
  | done threads hnil =>
    have : threads.flatten = [] := by
      rw [List.flatten_eq_nil_iff]
      exact hnil
    rw [this]
  | step threads i x tl rest hget _ ih =>
    exact ((flatten_set_perm threads i x tl hget).trans (List.Perm.cons x ih))

theorem mem_dedupeKeys_go (p : String) :
    ∀ (keys : List String) (seen : List String),
      p ∈ dedupeKeys.go seen keys ↔ p ∈ keys ∧ p ∉ seen := by
  intro keys
  induction keys with
  | nil => intro seen; simp [dedupeKeys.go]
  | cons k rest ih =>
    intro seen
    by_cases hseen : seen.contains k
    · rw [dedupeKeys.go, if_pos hseen, ih, List.mem_cons]
      have hk : k ∈ seen := by simpa using hseen
      constructor
      · exact fun ⟨h1, h2⟩ => ⟨Or.inr h1, h2⟩
      · rintro ⟨h1 | h1, h2⟩
        · exact absurd (h1 ▸ hk) h2
        · exact ⟨h1, h2⟩
    · rw [dedupeKeys.go, if_neg hseen, List.mem_cons, ih, List.mem_cons]
      have hkseen : k ∉ seen := by simpa using hseen
      by_cases hpk : p = k
      · subst hpk
        simp [hkseen]
      · simp [hpk]

theorem mem_dedupeKeys (p : String) (keys : List String) :
    p ∈ dedupeKeys keys ↔ p ∈ keys := by
  rw [dedupeKeys, mem_dedupeKeys_go]
  simp

theorem mapM_ok_of_forall {α β : Type} (f : α → Except CacheError β)
    (g : α → β) :
    ∀ (xs : List α), (∀ x ∈ xs, f x = .ok (g x)) → xs.mapM f = .ok (xs.map g) := by
  intro xs
  induction xs with
  | nil => intro _; rfl
  | cons x rest ih =>
    intro h
    rw [List.mapM_cons, h x (List.mem_cons_self _ _),
      ih (fun y hy => h y (List.mem_cons_of_mem _ hy))]
    rfl

theorem countInvokes_registrationEvents (pointer : String)
    (writes : List (String × Option Value)) :
    countInvokes (registrationEvents pointer writes) = 0 := by
  rw [registrationEvents, countInvokes, List.countP_cons]
  simp [List.countP_eq_zero]

theorem countInvokes_append (a b : List Event) :
    countInvokes (a ++ b) = countInvokes a + countInvokes b :=
  List.countP_append _ _ _

theorem addQueryKey_no_invokes (store : Store) (pointer queryKey : String)
    (st : Store) (evs : List Event)
    (h : addQueryKeyToDependencyPointer store pointer queryKey = .ok (st, evs)) :
    countInvokes evs = 0 := by
  rw [addQueryKeyToDependencyPointer] at h
  cases hw : registrationWrites (store.get pointer) pointer queryKey with
  | error e =>
    rw [hw] at h
    exact Except.noConfusion h
  | ok writes =>
    rw [hw] at h
    simp only [Except.ok.injEq, Prod.mk.injEq] at h
    rw [← h.2]
    exact countInvokes_registrationEvents pointer writes

theorem foldlM_ok_no_invokes
    (f : (Store × List Event) → String → Except CacheError (Store × List Event))
    (hf : ∀ acc p st evs, f acc p = .ok (st, evs) →
      countInvokes evs = countInvokes acc.2) :
    ∀ (pointers : List String) (acc : Store × List Event)
      (st : Store) (evs : List Event),
      List.foldlM f acc pointers = .ok (st, evs) →
      countInvokes evs = countInvokes acc.2 := by
  intro pointers
  induction pointers with
  | nil =>
    intro acc st evs h
    simp only [List.foldlM, pure, Except.pure, Except.ok.injEq] at h
    rw [h]
  | cons p rest ih =>
    intro acc st evs h
    rw [List.foldlM_cons] at h
    cases ha : f acc p with
    | error e =>
      rw [ha] at h
      simp only [bind, Except.bind] at h
      exact Except.noConfusion h
    | ok pair =>
      rw [ha] at h
      simp only [bind, Except.bind] at h
      have hih := ih pair st evs h
      rw [hih, hf acc p pair.1 pair.2 (by rw [ha])]

theorem registrationFold_no_invokes (key : String) (pointers : List String)
    (store : Store) (st : Store) (evs : List Event)
    (h : registerQueryKeyAgainstPointers store pointers key = .ok (st, evs)) :
    countInvokes evs = 0 := by
  rw [registerQueryKeyAgainstPointers] at h
  have := foldlM_ok_no_invokes _ ?_ pointers (store, []) st evs h
  · simpa [countInvokes] using this
  · intro acc p st2 evs2 hstep
    simp only [bind, Except.bind] at hstep
    cases ha : addQueryKeyToDependencyPointer acc.1 p key with
    | error e =>
      rw [ha] at hstep
      exact Except.noConfusion hstep
    | ok pair =>
      rw [ha] at hstep
      simp only [Except.ok.injEq, Prod.mk.injEq] at hstep
      rw [← hstep.2, countInvokes_append,
        addQueryKey_no_invokes acc.1 p key pair.1 pair.2 (by rw [ha])]
      exact Nat.add_zero _

theorem countInvokes_normalizedCacheSet (store : Store) (key : String) (v : Value) :
    countInvokes (normalizedCacheSet store key v).2 = 0 := by
  rw [normalizedCacheSet]
  simp only [countInvokes, List.countP_append]
  rw [Nat.add_eq_zero]
  constructor
  · rw [List.countP_eq_zero]
    intro e he
    rcases List.mem_map.mp he with ⟨r, _, hr⟩
    rw [← hr]
    simp
  · rw [List.countP_eq_zero]
    intro e he
    simp only [List.mem_singleton] at he
    rw [he]
    simp

/-- Claim C1, the spec's scenario as stated, refuted: after the cached
`getJobByUuid` registered its identity dependency and `setJobName` ran, the
mutation's impacted pointer set does not contain the identity pointer
`{Job, uuid}` (so nothing invalidates it — the scan emits pointers only for
changed non-metadata properties, never `uuid`-valued value pointers), and
the subsequent `getJobByUuid` call performs no logic invocation — it is a
cache hit, not the cache miss the claim asserts (the first call, a genuine
miss, performs exactly one). -/
theorem scenario_secondGet_is_cache_hit_not_miss :
    (mutationRunPointers scenarioMutation).contains jobIdentityPointer = false
      ∧ mutationRunInvalidated scenarioMutation = []
      ∧ queryRunInvokes scenarioSecondGet = 0
      ∧ queryRunInvokes scenarioFirstGet = 1 :=
  ⟨by decide, rfl, rfl, rfl⟩

/-- Claim C1, amended: end-to-end coherence for the identity-dependent query
holds, but through reference substitution rather than invalidation — the
first `getJobByUuid` call is a miss returning `{name: "Junk Removal"}` and
registers the identity dependency; `setJobName` invalidates no query (the
identity pointer is never among the scanned pointers) and persists the
updated snapshot to the shared reference key; the subsequent `getJobByUuid`
call is a cache *hit* (zero logic invocations) whose denormalization
substitutes the updated snapshot, so it returns the updated name. -/
theorem scenario_mutation_updates_reflected_via_cache_hit :
    queryRunValue scenarioFirstGet = some jobBefore
      ∧ queryRunInvokes scenarioFirstGet = 1
      ∧ mutationRunInvalidated scenarioMutation = []
      ∧ queryRunValue scenarioSecondGet = some jobAfter
      ∧ queryRunInvokes scenarioSecondGet = 0 :=
  ⟨rfl, rfl, rfl, rfl, rfl⟩

/-- Claim C3 as stated, refuted: when the registered query keys contain the
pointer key itself, invalidation overwrites the registry record with the
absent marker — the record is not left intact. -/
theorem invalidate_self_referencing_pointer_clobbers_record :
    (invalidationRunStore (invalidateQueriesByDependencyPointer
        [(".query.dep.p", some (pointerRecordOf [.vStr ".query.dep.p"]))]
        ".query.dep.p")).get ".query.dep.p" = none
      ∧ Store.get [(".query.dep.p", some (pointerRecordOf [.vStr ".query.dep.p"]))]
          ".query.dep.p" = some (pointerRecordOf [.vStr ".query.dep.p"]) :=
  ⟨rfl, rfl⟩

/-- Claim C3, amended: for a pointer whose registry record holds query keys
`[q1,…,qn]`, invalidation overwrites exactly those `n` keys with the absent
marker and no other key, returns that list, and — provided the pointer key
is not itself among the registered query keys — leaves the registry record
intact; for a pointer with no registry record it performs zero cache writes
and returns the empty list. -/
theorem invalidate_clears_exactly_registered_keys :
    (∀ (store : Store) (pointer : String) (qs : List String),
      store.get pointer = some (pointerRecordOf (qs.map Value.vStr)) →
      pointer ∉ qs →
      invalidateQueriesByDependencyPointer store pointer =
          .ok (qs.foldl (fun st q => st.set q none) store,
            Event.evGet pointer :: qs.map (fun q => Event.evSet q none),
            qs.map Value.vStr)
        ∧ (∀ k, (qs.foldl (fun st q => st.set q none) store).get k
            = if k ∈ qs then none else store.get k)
        ∧ (qs.foldl (fun st q => st.set q none) store).get pointer
            = some (pointerRecordOf (qs.map Value.vStr)))
    ∧ (∀ (store : Store) (pointer : String),
      store.get pointer = none →
      invalidateQueriesByDependencyPointer store pointer =
        .ok (store, [Event.evGet pointer], [])) := by
  constructor
  · intro store pointer qs hrec hnot
    have hqueries : pointerStateQueries (pointerRecordOf (qs.map Value.vStr))
        = qs.map Value.vStr := by
      simp [pointerStateQueries, pointerRecordOf, objGet]
    have htruthy : truthy (pointerRecordOf (qs.map Value.vStr)) = true := rfl
    have hvalidState : isValidPointerState (pointerRecordOf (qs.map Value.vStr))
        = true := by
      simp [isValidPointerState, pointerRecordOf, objGet, truthy]
    have hfold : (qs.map Value.vStr).foldl
        (fun st q => st.set (queryKeyOfValue q) none) store
        = qs.foldl (fun st q => st.set q none) store := by
      rw [List.foldl_map]
      exact rfl
    have hclears : invalidationClearKeys (some (pointerRecordOf (qs.map Value.vStr)))
        = qs := by
      simp only [invalidationClearKeys, htruthy, Bool.not_true, ite_false,
        Bool.false_eq_true, if_false, hqueries, List.map_map]
      have hcomp : (queryKeyOfValue ∘ Value.vStr) = fun q : String => q :=
        funext (fun _ => rfl)
      rw [hcomp]
      exact List.map_id' qs
    refine ⟨?_, ?_, ?_⟩
    · rw [invalidateQueriesByDependencyPointer]
      simp only [hrec, htruthy, hvalidState, Bool.not_true, Bool.false_eq_true,
        if_false, ite_false, hqueries, hfold]
      rw [invalidationThreadEvents, hclears]
    · intro k
      exact get_foldl_setNone qs store k
    · rw [get_foldl_setNone qs store pointer, if_neg hnot, hrec]
  · intro store pointer hnone
    rw [invalidateQueriesByDependencyPointer]
    simp only [hnone]
    rfl

/-- Witness for the amended C3 theorem: a pointer `"p"` with registered keys
`["q1","q2"]` is invalidated (both listed keys overwritten, both returned),
and invalidating a pointer with no record on an empty store performs no
write and returns nothing. -/
theorem invalidate_clears_exactly_registered_keys_witness :
    invalidateQueriesByDependencyPointer
        [("p", some (pointerRecordOf [.vStr "q1", .vStr "q2"])),
          ("q1", some (.vStr "cached"))] "p"
      = .ok (["q1", "q2"].foldl (fun st q => st.set q none)
            [("p", some (pointerRecordOf [.vStr "q1", .vStr "q2"])),
              ("q1", some (.vStr "cached"))],
          Event.evGet "p" :: ["q1", "q2"].map (fun q => Event.evSet q none),
          ["q1", "q2"].map Value.vStr)
      ∧ invalidateQueriesByDependencyPointer [] "nope"
          = .ok ([], [Event.evGet "nope"], []) :=
  ⟨(invalidate_clears_exactly_registered_keys.1
      [("p", some (pointerRecordOf [.vStr "q1", .vStr "q2"])),
        ("q1", some (.vStr "cached"))] "p" ["q1", "q2"] rfl (by decide)).1,
    invalidate_clears_exactly_registered_keys.2 [] "nope" rfl⟩

theorem queriesInclude_iff_count_pos (queries : List Value) (queryKey : String) :
    queriesInclude queries queryKey = true ↔ 0 < countQueryKey queries queryKey := by
  rw [queriesInclude, countQueryKey, List.any_eq_true, List.countP_pos_iff]

theorem addQueryKey_noop (store : Store) (pointer queryKey : String) (state : Value)
    (hs : store.get pointer = some state)
    (hv : isValidPointerState state = true)
    (hi : queriesInclude (pointerStateQueries state) queryKey = true) :
    addQueryKeyToDependencyPointer store pointer queryKey
      = .ok (store, [Event.evGet pointer]) := by
  rw [addQueryKeyToDependencyPointer,
    show registrationWrites (store.get pointer) pointer queryKey = .ok [] from by
      rw [hs, registrationWrites]
      simp [hv, hi]]
  rfl

theorem addQueryKey_write (store : Store) (pointer queryKey : String)
    (record : Value)
    (hw : registrationWrites (store.get pointer) pointer queryKey
      = .ok [(pointer, some record)]) :
    addQueryKeyToDependencyPointer store pointer queryKey
      = .ok (store.set pointer (some record),
          [Event.evGet pointer, Event.evSet pointer (some record)]) := by
  rw [addQueryKeyToDependencyPointer, hw]
  rfl

theorem isValidPointerState_falsy (state : Value) (h : truthy state = false) :
    isValidPointerState state = false := by
  cases state with
  | vNull => rfl
  | vBool b => exact Bool.and_false _
  | vNum n => exact Bool.and_false _
  | vStr s => exact Bool.and_false _
  | vArr items => simp [truthy] at h
  | vObj fields => simp [truthy] at h
  | vRef k => simp [truthy] at h
  | vEntity k n u up f => simp [truthy] at h

/-- Claim C7: for every pointer and query key — starting from any registry
state registration itself can produce (no record, a falsy slot, or a valid
record holding the key at most once) — two sequential
`addQueryKeyToDependencyPointer` calls with the same pair leave the record
holding exactly one occurrence of the key, and the repeat call performs no
cache write (its trace is the record read only). -/
theorem registration_idempotent (store : Store) (pointer queryKey : String)
    (h : registrationPrecondition store pointer queryKey = true) :
    ∃ (stAfter : Store) (evs : List Event),
      addQueryKeyToDependencyPointer store pointer queryKey = .ok (stAfter, evs)
        ∧ countQueryKey (queriesAt stAfter pointer) queryKey = 1
        ∧ addQueryKeyToDependencyPointer stAfter pointer queryKey
            = .ok (stAfter, [Event.evGet pointer]) := by
  have hvalidFresh : isValidPointerState (pointerRecordOf [.vStr queryKey]) = true := by
    simp [isValidPointerState, pointerRecordOf, objGet, truthy]
  have hqFresh : pointerStateQueries (pointerRecordOf [.vStr queryKey])
      = [.vStr queryKey] := by
    simp [pointerStateQueries, pointerRecordOf, objGet]
  have hcFresh : countQueryKey [Value.vStr queryKey] queryKey = 1 := by
    simp [countQueryKey, List.countP_cons]
  have hiFresh : queriesInclude [Value.vStr queryKey] queryKey = true := by
    simp [queriesInclude]
  -- the fresh-record outcome shared by the no-record and falsy-slot cases
  have freshCase : registrationWrites (store.get pointer) pointer queryKey
        = .ok [(pointer, some (pointerRecordOf [.vStr queryKey]))] →
      ∃ (stAfter : Store) (evs : List Event),
        addQueryKeyToDependencyPointer store pointer queryKey = .ok (stAfter, evs)
          ∧ countQueryKey (queriesAt stAfter pointer) queryKey = 1
          ∧ addQueryKeyToDependencyPointer stAfter pointer queryKey
              = .ok (stAfter, [Event.evGet pointer]) := by
    intro hw
    refine ⟨store.set pointer (some (pointerRecordOf [.vStr queryKey])),
      [Event.evGet pointer,
        Event.evSet pointer (some (pointerRecordOf [.vStr queryKey]))],
      addQueryKey_write store pointer queryKey _ hw, ?_, ?_⟩
    · have hq2 : queriesAt
          (store.set pointer (some (pointerRecordOf [.vStr queryKey]))) pointer
          = [Value.vStr queryKey] := by
        rw [queriesAt, Store.get_set_self]
        exact hqFresh
      rw [hq2]
      exact hcFresh
    · exact addQueryKey_noop _ pointer queryKey _ (Store.get_set_self _ _ _)
        hvalidFresh (hqFresh ▸ hiFresh)
  cases hs : store.get pointer with
  | none =>
    exact freshCase (by rw [hs]; rfl)
  | some state =>
    by_cases ht : truthy state
    · rw [registrationPrecondition, hs] at h
      simp only [ht, Bool.not_true, Bool.false_or, Bool.and_eq_true,
        decide_eq_true_eq] at h
      obtain ⟨hv, hc⟩ := h
      by_cases hi : queriesInclude (pointerStateQueries state) queryKey
      · -- already included: both calls are no-ops
        have hc1 : countQueryKey (pointerStateQueries state) queryKey = 1 := by
          have := (queriesInclude_iff_count_pos _ _).mp hi
          omega
        refine ⟨store, [Event.evGet pointer],
          addQueryKey_noop store pointer queryKey state hs hv hi, ?_,
          addQueryKey_noop store pointer queryKey state hs hv hi⟩
        rw [queriesAt, hs]
        exact hc1
      · -- not yet included: the first call appends, the second is a no-op
        have hc0 : countQueryKey (pointerStateQueries state) queryKey = 0 := by
          rcases Nat.eq_zero_or_pos (countQueryKey (pointerStateQueries state) queryKey)
            with h0 | hpos
          · exact h0
          · exact absurd ((queriesInclude_iff_count_pos _ _).mpr hpos) (by simpa using hi)
        have hw : registrationWrites (store.get pointer) pointer queryKey
            = .ok [(pointer, some (pointerRecordOf
                (pointerStateQueries state ++ [.vStr queryKey])))] := by
          rw [hs, registrationWrites]
          simp [hv, hi]
        have hqNew : pointerStateQueries (pointerRecordOf
            (pointerStateQueries state ++ [.vStr queryKey]))
            = pointerStateQueries state ++ [.vStr queryKey] := by
          simp [pointerStateQueries, pointerRecordOf, objGet]
        have hvNew : isValidPointerState (pointerRecordOf
            (pointerStateQueries state ++ [.vStr queryKey])) = true := by
          simp [isValidPointerState, pointerRecordOf, objGet, truthy]
        have hcNew : countQueryKey
            (pointerStateQueries state ++ [.vStr queryKey]) queryKey = 1 := by
          rw [countQueryKey, List.countP_append]
          rw [countQueryKey] at hc0
          rw [hc0]
          simp [List.countP_cons]
        refine ⟨store.set pointer (some (pointerRecordOf
            (pointerStateQueries state ++ [.vStr queryKey]))),
          [Event.evGet pointer, Event.evSet pointer (some (pointerRecordOf
            (pointerStateQueries state ++ [.vStr queryKey])))],
          addQueryKey_write store pointer queryKey _ hw, ?_, ?_⟩
        · have hq2 : queriesAt (store.set pointer (some (pointerRecordOf
              (pointerStateQueries state ++ [.vStr queryKey])))) pointer
              = pointerStateQueries state ++ [.vStr queryKey] := by
            rw [queriesAt, Store.get_set_self]
            exact hqNew
          rw [hq2]
          exact hcNew
        · apply addQueryKey_noop _ pointer queryKey _ (Store.get_set_self _ _ _) hvNew
          rw [hqNew]
          exact (queriesInclude_iff_count_pos _ _).mpr (by rw [hcNew]; omega)
    · -- falsy slot: overwritten with the initial record
      apply freshCase
      rw [hs, registrationWrites]
      have htf : truthy state = false := by simpa using ht
      have hnv := isValidPointerState_falsy state htf
      simp [hnv, htf]

/-- Witness for the C7 theorem: registering `("p","k")` twice on an empty
store ends with a record holding exactly one `"k"`, the repeat call
performing only its read. -/
theorem registration_idempotent_witness :
    registrationPrecondition [] "p" "k" = true
      ∧ ∃ (stAfter : Store) (evs : List Event),
        addQueryKeyToDependencyPointer [] "p" "k" = .ok (stAfter, evs)
          ∧ countQueryKey (queriesAt stAfter "p") "k" = 1
          ∧ addQueryKeyToDependencyPointer stAfter "p" "k"
              = .ok (stAfter, [Event.evGet "p"]) :=
  ⟨by decide, registration_idempotent [] "p" "k" (by decide)⟩

/-- Claim C8 as stated, refuted: a mutation output referencing a mutable
domain entity without a `uuid` whose cached snapshot equals its current
state is silently skipped — the impact scan returns no pointers and raises
no error, instead of failing fast. -/
theorem missing_uuid_skipped_when_nothing_changed :
    getDependencyPointersInvalidatedByMutationOutputReference
        widgetStore "ref.widget" widgetWithoutUuid = .ok []
      ∧ hasField widgetWithoutUuid "uuid" = false :=
  ⟨rfl, rfl⟩

/-- Claim C8, amended: for a mutation-output reference to a `DomainEntity`
without a `uuid`, the impact scan raises the fatal configuration error
exactly when at least one property is impacted (changed, or any non-metadata
property on a first write); with no impacted property the entity yields no
pointers and no error. -/
theorem missing_uuid_error_iff_impacted (store : Store)
    (referenceKey name : String) (unique updatable : List String)
    (fields : List (String × Value))
    (huuid : hasField (.vObj fields) "uuid" = false) :
    (impactedProperties (store.get referenceKey) updatable fields = [] →
      getDependencyPointersInvalidatedByMutationOutputReference store referenceKey
        (.vEntity .entity name unique updatable fields) = .ok [])
    ∧ (impactedProperties (store.get referenceKey) updatable fields ≠ [] →
      getDependencyPointersInvalidatedByMutationOutputReference store referenceKey
        (.vEntity .entity name unique updatable fields)
        = .error (.undefinableEntity referenceKey)) := by
  constructor
  · intro hempty
    rw [getDependencyPointersInvalidatedByMutationOutputReference]
    simp only [hempty, List.mapM_nil]
    rfl
  · intro hne
    rw [getDependencyPointersInvalidatedByMutationOutputReference]
    cases himp : impactedProperties (store.get referenceKey) updatable fields with
    | nil => exact absurd himp hne
    | cons k rest =>
      have hhead : impactedPropertyPointers (store.get referenceKey) referenceKey
          name fields k = .error (.undefinableEntity referenceKey) := by
        rw [impactedPropertyPointers]
        simp [huuid]
      simp only [himp, List.mapM_cons, hhead]
      rfl

/-- Witness for the amended C8 theorem: the uncached `Widget` without a
`uuid` (all non-metadata properties impacted) aborts the scan with the
configuration error; the already-cached, unchanged one yields no pointers
and no error. -/
theorem missing_uuid_error_iff_impacted_witness :
    getDependencyPointersInvalidatedByMutationOutputReference [] "ref.widget"
        widgetWithoutUuid = .error (.undefinableEntity "ref.widget")
      ∧ getDependencyPointersInvalidatedByMutationOutputReference widgetStore
          "ref.widget" widgetWithoutUuid = .ok [] :=
  ⟨(missing_uuid_error_iff_impacted [] "ref.widget" "Widget" ["wid"] ["label"]
      [("wid", .vStr "w1"), ("label", .vStr "L")] (by decide)).2 (by decide),
    (missing_uuid_error_iff_impacted widgetStore "ref.widget" "Widget" ["wid"]
      ["label"] [("wid", .vStr "w1"), ("label", .vStr "L")] (by decide)).1 (by decide)⟩

/-- Claim C9: for a relationship declaration passing the naming check, the
resolver compares `via.dobj` with `from.dobj`: when equal it emits, per id
the `from.uuid` extractor produced, an *identity*-specifier pointer on
`(via.dobj, via.prop, uuid = id)`; otherwise a *value*-specifier pointer on
`(via.dobj, via.prop, value = id)`. -/
theorem relationship_side_resolution (intuitive : String → String → Bool)
    (fromDobj toDobj viaDobj viaProp : String)
    (fromUuid : List Value → Value → OneOrMany)
    (input : List Value) (output : Value)
    (hintuitive : intuitive viaProp
      (if viaDobj == fromDobj then toDobj else fromDobj) = true) :
    dependencyPointers intuitive
        (.relationship fromDobj fromUuid toDobj viaDobj viaProp) input output
      = .ok (((fromUuid input output).toList).map (fun u =>
          if viaDobj == fromDobj then
            defineDependencyPointerKey viaDobj viaProp (.propertyOf u)
          else
            defineDependencyPointerKey viaDobj viaProp
              (.propertyEquals (.vStr u)))) := by
  rw [dependencyPointers]
  simp only [hintuitive, Bool.not_true, Bool.false_eq_true, if_false, ite_false]
  by_cases hside : viaDobj == fromDobj
  · simp only [hside, if_true, ite_true]
  · simp only [hside, Bool.false_eq_true, if_false, ite_false]

/-- Witness for the C9 theorem, one instance per side: the relationship via
`Container.onShipUuid` from `Container` (foreign key on the source) resolves
to identity-specifier pointers, and the same declaration from `Ship`
(foreign key on the target's side) resolves to value-specifier pointers. -/
theorem relationship_side_resolution_witness :
    dependencyPointers (fun p d => p == "onShipUuid" || d == "Container")
        (.relationship "Container" (fun _ _ => .one "c1") "Ship" "Container"
          "onShipUuid") [] .vNull
      = .ok [defineDependencyPointerKey "Container" "onShipUuid" (.propertyOf "c1")]
      ∧ dependencyPointers (fun p d => p == "onShipUuid" || d == "Container")
          (.relationship "Ship" (fun _ _ => .one "s1") "Container" "Container"
            "onShipUuid") [] .vNull
        = .ok [defineDependencyPointerKey "Container" "onShipUuid"
            (.propertyEquals (.vStr "s1"))] :=
  ⟨relationship_side_resolution _ "Container" "Ship" "Container" "onShipUuid"
      (fun _ _ => .one "c1") [] .vNull (by decide),
    relationship_side_resolution _ "Ship" "Container" "Container" "onShipUuid"
      (fun _ _ => .one "s1") [] .vNull (by decide)⟩

/-- Claim C10 (implicit): any falsy value stored at a query's cache key —
the `undefined` marker written by invalidation as well as a falsy cached
output — is treated by `withQueryCaching` as a cache miss: a completed run
invokes the underlying logic exactly once instead of serving the cached
falsy value, so a falsy output is never served from the cache. -/
theorem falsy_cache_entry_treated_as_miss (intuitive : String → String → Bool)
    (logic : List Value → Value) (options : QueryCachingOptions)
    (store : Store) (input : List Value) (r : QueryRunResult)
    (hfalsy : truthyOpt (store.get (queryCacheKeyOf options input)) = false)
    (hrun : withQueryCachingRun intuitive logic options store input = .ok r) :
    countInvokes r.events = 1 := by
  have hmiss : truthyOpt
      (normalizedCacheGet store (queryCacheKeyOf options input)) = false :=
    normalizedCacheGet_falsy store _ hfalsy
  rw [withQueryCachingRun] at hrun
  simp only [hmiss, Bool.false_eq_true, if_false, ite_false] at hrun
  cases hv : (match options.valid with
    | none => true
    | some valid => valid input (logic input)) with
  | false =>
    simp only [hv, Bool.not_false, if_true, ite_true, Except.ok.injEq] at hrun
    rw [← hrun]
    rfl
  | true =>
    simp only [hv, Bool.not_true, Bool.false_eq_true, if_false, ite_false] at hrun
    cases hres : getDependencyPointersDependedOnByQuery intuitive
        options.dependsOn input (logic input) with
    | error e =>
      rw [hres] at hrun
      simp only [bind, Except.bind] at hrun
      exact Except.noConfusion hrun
    | ok pointers =>
      rw [hres] at hrun
      simp only [bind, Except.bind] at hrun
      cases hfold : registerQueryKeyAgainstPointers store pointers
          (queryCacheKeyOf options input) with
      | error e =>
        rw [hfold] at hrun
        exact Except.noConfusion hrun
      | ok pair =>
        rw [hfold] at hrun
        simp only [Except.ok.injEq] at hrun
        have hreg : countInvokes pair.2 = 0 :=
          registrationFold_no_invokes (queryCacheKeyOf options input)
            pointers store pair.1 pair.2 (by rw [hfold])
        have hpersist := countInvokes_normalizedCacheSet pair.1
          (queryCacheKeyOf options input) (logic input)
        rw [← hrun]
        simp only [queryMissTrace, countInvokes, List.countP_cons,
          List.countP_append] at hreg hpersist ⊢
        simp [hreg, hpersist]

/-- Witness for the C10 theorem: with the empty-string marker cached at the
query key, a completed run re-invokes the logic exactly once. -/
theorem falsy_cache_entry_treated_as_miss_witness :
    truthyOpt (Store.get [("K", some (.vStr ""))] "K") = false
      ∧ countInvokes [Event.evGet "K", Event.evInvoke,
            Event.evSet "K" (some (.vStr "out")), Event.evGet "K"] = 1 :=
  ⟨by decide,
    falsy_cache_entry_treated_as_miss (fun _ _ => true) (fun _ => .vStr "out")
      ⟨some (fun _ => "K"), .statically [], none⟩ [("K", some (.vStr ""))] []
      ⟨some (.vStr "out"),
        [("K", some (.vStr "out")), ("K", some (.vStr ""))],
        [Event.evGet "K", Event.evInvoke,
          Event.evSet "K" (some (.vStr "out")), Event.evGet "K"]⟩
      (by decide) rfl⟩

/-- Claim C5: on a cache miss whose output passes validation (or with no
`valid` predicate), a completed `withQueryCaching` run invokes the
underlying logic exactly once and returns a value equal to the output that
logic produced, following the miss path: the miss read, the invocation,
the dependency registrations, the persist of the normalized output, and
the final re-read whose denormalization restores the output (given the
well-formedness the normalization collaborator contract assumes: a
marker-free, reference-coherent output whose cache key is no reference
key). -/
theorem missPath_returns_logic_output_once
    (intuitive : String → String → Bool) (logic : List Value → Value)
    (options : QueryCachingOptions) (store : Store) (input : List Value)
    (pointers : List String) (storeRegistered : Store)
    (registrationTrace : List Event)
    (hmiss : truthyOpt
      (normalizedCacheGet store (queryCacheKeyOf options input)) = false)
    (hvalid : queryOutputIsValid options input (logic input) = true)
    (hres : getDependencyPointersDependedOnByQuery intuitive options.dependsOn
      input (logic input) = .ok pointers)
    (hreg : registerQueryKeyAgainstPointers store pointers
        (queryCacheKeyOf options input)
      = .ok (storeRegistered, registrationTrace))
    (hm : markerFree (logic input) = true)
    (hc : ReferencesCoherent (logic input))
    (hk : keyOutsideReferences (queryCacheKeyOf options input)
      (logic input) = true) :
    withQueryCachingRun intuitive logic options store input
      = .ok ⟨some (logic input),
          (normalizedCacheSet storeRegistered (queryCacheKeyOf options input)
            (logic input)).1,
          queryMissTrace (queryCacheKeyOf options input) registrationTrace
            (normalizedCacheSet storeRegistered (queryCacheKeyOf options input)
              (logic input)).2⟩
      ∧ countInvokes (queryMissTrace (queryCacheKeyOf options input)
          registrationTrace
          (normalizedCacheSet storeRegistered (queryCacheKeyOf options input)
            (logic input)).2) = 1 := by
  constructor
  · rw [withQueryCachingRun]
    simp only [hmiss, Bool.false_eq_true, if_false, ite_false]
    have hv' : (match options.valid with
      | none => true
      | some valid => valid input (logic input)) = true := hvalid
    simp only [hv', Bool.not_true, Bool.false_eq_true, if_false, ite_false]
    rw [hres]
    simp only [bind, Except.bind]
    rw [hreg]
    simp only [Except.bind]
    rw [normalizedCacheGet_after_set storeRegistered
      (queryCacheKeyOf options input) (logic input) hm hc hk]
  · have hreg0 : countInvokes registrationTrace = 0 :=
      registrationFold_no_invokes (queryCacheKeyOf options input)
        pointers store storeRegistered registrationTrace hreg
    have hpersist := countInvokes_normalizedCacheSet storeRegistered
      (queryCacheKeyOf options input) (logic input)
    simp only [queryMissTrace, countInvokes, List.countP_cons,
      List.countP_append] at hreg0 hpersist ⊢
    simp [hreg0, hpersist]

/-- Witness for the C5 theorem: a miss on an empty store with no declared
dependencies returns the job entity the logic produced, with exactly one
invocation. -/
theorem missPath_returns_logic_output_once_witness :
    withQueryCachingRun (fun _ _ => true) (fun _ => jobBefore)
        ⟨some (fun _ => "QK"), .statically [], none⟩ [] []
      = .ok ⟨some jobBefore, (normalizedCacheSet [] "QK" jobBefore).1,
          queryMissTrace "QK" [] (normalizedCacheSet [] "QK" jobBefore).2⟩
      ∧ countInvokes
          (queryMissTrace "QK" [] (normalizedCacheSet [] "QK" jobBefore).2) = 1 :=
  missPath_returns_logic_output_once (fun _ _ => true) (fun _ => jobBefore)
    ⟨some (fun _ => "QK"), .statically [], none⟩ [] [] [] [] []
    (by decide) rfl rfl rfl (by decide)
    (by
      intro p hp q hq hpq
      have hrefs : extractReferences jobBefore
          = [(getCacheReferenceKey jobBefore, jobBefore)] := rfl
      rw [hrefs, List.mem_singleton] at hp hq
      rw [hp, hq])
    (by decide)

/-- Claim C2: in every completed miss-path execution with a valid output —
for every pointer-state observation and every interleaving the registration
`Promise.all` admits — the segment of the trace strictly before the write of
the query's own output consists of exactly the miss read, the invocation,
*all* operations of *all* registration threads, and the reference-snapshot
writes; the query-output write itself sits at the position right after them.
No write of the query output occurs until every registration has
completed. -/
theorem registrations_complete_before_query_output_write
    (key : String) (entry : Option Value) (pointers : List String)
    (reads : List (Option Value)) (regTrace refWrites : List Event)
    (hint : IsInterleaving
      ((pointers.zip reads).map (fun pr => registrationThreadEvents pr.2 pr.1 key))
      regTrace) :
    ((queryMissTrace key regTrace (refWrites ++ [Event.evSet key entry])).take
        (2 + regTrace.length + refWrites.length)).Perm
      (Event.evGet key :: Event.evInvoke ::
        (((pointers.zip reads).map
          (fun pr => registrationThreadEvents pr.2 pr.1 key)).flatten ++ refWrites))
    ∧ (queryMissTrace key regTrace (refWrites ++ [Event.evSet key entry])).get?
        (2 + regTrace.length + refWrites.length)
      = some (Event.evSet key entry) := by
  have hidx : 2 + regTrace.length + refWrites.length
      = regTrace.length + refWrites.length + 2 := by omega
  rw [queryMissTrace, hidx]
  constructor
  · rw [List.take_succ_cons, List.take_succ_cons, List.append_assoc,
      List.take_append, List.append_assoc, List.take_left]
    exact ((interleaving_flatten_perm _ _ hint).symm.append_right refWrites).cons
      Event.evInvoke |>.cons (Event.evGet key)
  · rw [List.get?_cons_succ, List.get?_cons_succ, List.append_assoc,
      List.get?_append_right (by omega), Nat.add_sub_cancel_left,
      List.append_assoc,
      List.get?_append_right (Nat.le_refl refWrites.length), Nat.sub_self]
    rfl

/-- Witness for the C2 theorem: one registration thread (fresh pointer
`"p"`, query key `"k"`) interleaved the only possible way; its two
operations land before the query-output write. -/
theorem registrations_complete_before_query_output_write_witness :
    ((queryMissTrace "k"
        (registrationThreadEvents none "p" "k")
        ([Event.evSet "r" (some .vNull), Event.evSet "k" (some (.vStr "o"))])).take
        (2 + (registrationThreadEvents none "p" "k").length + 1)).Perm
      (Event.evGet "k" :: Event.evInvoke ::
        (((["p"].zip [(none : Option Value)]).map
          (fun pr => registrationThreadEvents pr.2 pr.1 "k")).flatten
            ++ [Event.evSet "r" (some .vNull)]))
    ∧ (queryMissTrace "k"
        (registrationThreadEvents none "p" "k")
        ([Event.evSet "r" (some .vNull), Event.evSet "k" (some (.vStr "o"))])).get?
        (2 + (registrationThreadEvents none "p" "k").length + 1)
      = some (Event.evSet "k" (some (.vStr "o"))) := by
  have hstep2 : IsInterleaving
      ([[]] : List (List Event)) ([] : List Event) :=
    .done _ (by intro l hl; simpa using hl)
  have hthread : (["p"].zip [(none : Option Value)]).map
      (fun pr => registrationThreadEvents pr.2 pr.1 "k")
      = [registrationThreadEvents none "p" "k"] := rfl
  have hint : IsInterleaving
      ((["p"].zip [(none : Option Value)]).map
        (fun pr => registrationThreadEvents pr.2 pr.1 "k"))
      (registrationThreadEvents none "p" "k") := by
    rw [hthread]
    refine .step _ 0 _ _ _ rfl (.step _ 0 _ _ _ rfl (.done _ ?_))
    intro l hl
    simpa using hl
  have := registrations_complete_before_query_output_write "k"
    (some (.vStr "o")) ["p"] [none]
    (registrationThreadEvents none "p" "k")
    [Event.evSet "r" (some .vNull)] hint
  simpa using this

/-- Claim C6: in every completed `withMutationEffects` execution — for every
record observation and every interleaving the invalidation `Promise.all`
admits — the trace segment before the first reference-snapshot write
consists of exactly the invocation and *all* operations of *all*
invalidation threads, and everything from that position on is exactly the
reference-snapshot writes: no reference-key write occurs while any
dependent query cache clear is outstanding. -/
theorem snapshots_persist_after_invalidations
    (pointers : List String) (reads : List (Option Value))
    (invTrace : List Event) (references : List (String × Value))
    (hint : IsInterleaving
      ((pointers.zip reads).map (fun pr => invalidationThreadEvents pr.2 pr.1))
      invTrace) :
    ((mutationEffectsTrace invTrace
        (references.map (fun r => Event.evSet r.1 (some r.2)))).take
        (1 + invTrace.length)).Perm
      (Event.evInvoke ::
        ((pointers.zip reads).map
          (fun pr => invalidationThreadEvents pr.2 pr.1)).flatten)
    ∧ (mutationEffectsTrace invTrace
        (references.map (fun r => Event.evSet r.1 (some r.2)))).drop
        (1 + invTrace.length)
      = references.map (fun r => Event.evSet r.1 (some r.2)) := by
  have hidx : 1 + invTrace.length = invTrace.length + 1 := by omega
  rw [mutationEffectsTrace, hidx]
  constructor
  · rw [List.take_succ_cons, List.take_left]
    exact ((interleaving_flatten_perm _ _ hint).symm).cons Event.evInvoke
  · rw [List.drop_succ_cons, List.drop_left]

/-- Witness for the C6 theorem: one invalidation thread (pointer `"p"`
holding dependent query `"q"`) interleaved the only possible way; both of
its operations land before the single reference-snapshot write. -/
theorem snapshots_persist_after_invalidations_witness :
    ((mutationEffectsTrace
        (invalidationThreadEvents (some (pointerRecordOf [.vStr "q"])) "p")
        ([("r", Value.vNull)].map (fun r => Event.evSet r.1 (some r.2)))).take
        (1 + (invalidationThreadEvents
          (some (pointerRecordOf [.vStr "q"])) "p").length)).Perm
      (Event.evInvoke ::
        ((["p"].zip [some (pointerRecordOf [.vStr "q"])]).map
          (fun pr => invalidationThreadEvents pr.2 pr.1)).flatten)
    ∧ (mutationEffectsTrace
        (invalidationThreadEvents (some (pointerRecordOf [.vStr "q"])) "p")
        ([("r", Value.vNull)].map (fun r => Event.evSet r.1 (some r.2)))).drop
        (1 + (invalidationThreadEvents
          (some (pointerRecordOf [.vStr "q"])) "p").length)
      = [("r", Value.vNull)].map (fun r => Event.evSet r.1 (some r.2)) := by
  have hint : IsInterleaving
      ((["p"].zip [some (pointerRecordOf [.vStr "q"])]).map
        (fun pr => invalidationThreadEvents pr.2 pr.1))
      (invalidationThreadEvents (some (pointerRecordOf [.vStr "q"])) "p") := by
    refine .step _ 0 _ _ _ rfl (.step _ 0 _ _ _ rfl (.done _ ?_))
    intro l hl
    simpa using hl
  exact snapshots_persist_after_invalidations ["p"]
    [some (pointerRecordOf [.vStr "q"])]
    (invalidationThreadEvents (some (pointerRecordOf [.vStr "q"])) "p")
    [("r", Value.vNull)] hint

/-- Claim C4 as stated, refuted: for an entity whose prior snapshot holds
the falsy old value `""` of the changed updatable property `label`, the
impact scan emits the identity pointer and the new-value pointer but *not*
the old-value pointer for `""` — the union of old and new values is not
fully covered, because a falsy old value contributes nothing. -/
theorem impact_scan_skips_falsy_old_value :
    getDependencyPointersInvalidatedByMutationOutputReference boxStore
        "ref.box" boxWithFalsyHistory
      = .ok [defineDependencyPointerKey "Box" "label" (.propertyOf "bu"),
          defineDependencyPointerKey "Box" "label" (.propertyEquals (.vStr "B"))]
      ∧ (scanRunPointers (getDependencyPointersInvalidatedByMutationOutputReference
            boxStore "ref.box" boxWithFalsyHistory)).contains
          (defineDependencyPointerKey "Box" "label" (.propertyEquals (.vStr "")))
        = false :=
  ⟨rfl, by decide⟩

/-- Claim C4, amended: for a mutation-output entity with a truthy prior
cached snapshot (with a `uuid`, and with every changed updatable property
present on the entity), the impact scan emits exactly, for each declared
updatable property whose canonical serialization changed, the
identity-specifier pointer for that entity and property plus a
value-specifier pointer for every element of the concatenation of the old
value(s) and new value(s) — where a falsy old value contributes no elements
(truthy old values and all new values expand, arrays per element) — and no
pointer for any unchanged property. -/
theorem impact_scan_emits_changed_property_pointers (store : Store)
    (referenceKey name : String) (unique updatable : List String)
    (fields : List (String × Value)) (cached : Value)
    (hcached : store.get referenceKey = some cached)
    (htruthy : truthy cached = true)
    (huuid : hasField (.vObj fields) "uuid" = true)
    (hpresent : ∀ k ∈ changedUpdatableProperties cached updatable fields,
      (fields.lookup k).isSome) :
    ∃ pointers,
      getDependencyPointersInvalidatedByMutationOutputReference store
          referenceKey (.vEntity .entity name unique updatable fields)
        = .ok pointers
      ∧ ∀ p, p ∈ pointers ↔
          ∃ k ∈ changedUpdatableProperties cached updatable fields,
            p = defineDependencyPointerKey name k (.propertyOf
                (stringCoerce ((objGet (.vObj fields) "uuid").getD .vNull)))
              ∨ ∃ v ∈ oldValueArray (objGet cached k)
                  ++ newValueCandidates (fields.lookup k),
                  p = defineDependencyPointerKey name k (.propertyEquals v) := by
  have hnewOk : ∀ (w : Value),
      newValueArray (some w) = .ok (newValueCandidates (some w)) := by
    intro w
    cases w <;> rfl
  have himp : impactedProperties (store.get referenceKey) updatable fields
      = changedUpdatableProperties cached updatable fields := by
    rw [hcached, impactedProperties]
    simp only [truthyOpt, htruthy, Bool.not_true, Bool.false_eq_true,
      if_false, ite_false]
    rfl
  have hstep : ∀ k ∈ changedUpdatableProperties cached updatable fields,
      impactedPropertyPointers (store.get referenceKey) referenceKey name
          fields k
        = .ok (defineDependencyPointerKey name k (.propertyOf
            (stringCoerce ((objGet (.vObj fields) "uuid").getD .vNull)))
          :: (oldValueArray (objGet cached k)
              ++ newValueCandidates (fields.lookup k)).map
            (fun v => defineDependencyPointerKey name k (.propertyEquals v))) := by
    intro k hk
    obtain ⟨w, hw⟩ := Option.isSome_iff_exists.mp (hpresent k hk)
    rw [impactedPropertyPointers]
    simp only [huuid, Bool.not_true, Bool.false_eq_true, if_false, ite_false,
      hcached, hw, hnewOk w, bind, Except.bind]
    rfl
  refine ⟨dedupeKeys ((changedUpdatableProperties cached updatable fields).map
      (fun k => defineDependencyPointerKey name k (.propertyOf
          (stringCoerce ((objGet (.vObj fields) "uuid").getD .vNull)))
        :: (oldValueArray (objGet cached k)
            ++ newValueCandidates (fields.lookup k)).map
          (fun v => defineDependencyPointerKey name k
            (.propertyEquals v)))).flatten, ?_, ?_⟩
  · rw [getDependencyPointersInvalidatedByMutationOutputReference, himp,
      mapM_ok_of_forall _ _ _ hstep]
    simp only [bind, Except.bind]
  · intro p
    rw [mem_dedupeKeys, List.mem_flatten]
    constructor
    · rintro ⟨l, hl, hp⟩
      rcases List.mem_map.mp hl with ⟨k, hk, hlk⟩
      rw [← hlk] at hp
      rcases List.mem_cons.mp hp with h | h
      · exact ⟨k, hk, Or.inl h⟩
      · rcases List.mem_map.mp h with ⟨v, hv, hvp⟩
        exact ⟨k, hk, Or.inr ⟨v, hv, hvp.symm⟩⟩
    · rintro ⟨k, hk, h | ⟨v, hv, hvp⟩⟩
      · exact ⟨_, List.mem_map_of_mem _ hk, by rw [h]; exact List.mem_cons_self _ _⟩
      · exact ⟨_, List.mem_map_of_mem _ hk,
          by rw [hvp]; exact List.mem_cons_of_mem _ (List.mem_map_of_mem _ hv)⟩

/-- Witness for the amended C4 theorem: the cached `Box` whose `label`
changed from `""` to `"B"` satisfies the hypotheses, and the scan's output
is characterized by the changed-property expansion. -/
theorem impact_scan_emits_changed_property_pointers_witness :
    ∃ pointers,
      getDependencyPointersInvalidatedByMutationOutputReference boxStore
          "ref.box"
          (.vEntity .entity "Box" ["bid"] ["label"]
            [("uuid", .vStr "bu"), ("bid", .vStr "b1"), ("label", .vStr "B")])
        = .ok pointers
      ∧ ∀ p, p ∈ pointers ↔
          ∃ k ∈ changedUpdatableProperties
              (.vObj [("uuid", .vStr "bu"), ("bid", .vStr "b1"),
                ("label", .vStr "")]) ["label"]
              [("uuid", .vStr "bu"), ("bid", .vStr "b1"), ("label", .vStr "B")],
            p = defineDependencyPointerKey "Box" k (.propertyOf
                (stringCoerce ((objGet (.vObj [("uuid", .vStr "bu"),
                  ("bid", .vStr "b1"), ("label", .vStr "B")]) "uuid").getD .vNull)))
              ∨ ∃ v ∈ oldValueArray (objGet
                    (.vObj [("uuid", .vStr "bu"), ("bid", .vStr "b1"),
                      ("label", .vStr "")]) k)
                  ++ newValueCandidates (List.lookup k
                    [("uuid", .vStr "bu"), ("bid", .vStr "b1"),
                      ("label", .vStr "B")]),
                  p = defineDependencyPointerKey "Box" k (.propertyEquals v) :=
  impact_scan_emits_changed_property_pointers boxStore "ref.box" "Box" ["bid"]
    ["label"] [("uuid", .vStr "bu"), ("bid", .vStr "b1"), ("label", .vStr "B")]
    (.vObj [("uuid", .vStr "bu"), ("bid", .vStr "b1"), ("label", .vStr "")])
    rfl rfl (by decide) (by decide)
